import Mathlib

/-!
# Spending Navigator backend (`src/Expense/server.js`)

A shallow embedding of the Express handlers of `server.js`.

Modelling conventions.

* The two Mongo collections and the responses written so far form an explicit
  `World`; every handler is a function `World → World`, and requests are served
  one at a time.
* A JavaScript `Number` is a `Double`: NaN, the two infinities, or a finite
  binary64 value, with addition and subtraction rounded to nearest, ties to even.
  The two zeros are identified (JSON prints both as `0`). A response keeps the
  number it was given; `res.json` prints NaN and the infinities as `null`.
* A field of schema type `Number` that carries no validation (`amount`) is an
  `Amount`: absent, `null`, or a number, as Mongoose's cast stores it. The other
  document fields hold a value of their schema type; a `Date` is an `Int`
  timestamp.
* The `password` of a request body is a `BodyVal`, which keeps what `typeof`
  sees; the other body fields are given as the schema cast leaves them.
* `jsonwebtoken` and `bcryptjs` are external libraries and enter as the
  parameter `Lib`, each call a function of its arguments; a `bcrypt` call either
  returns or throws, and a throw reaches the handler's `catch`, which answers 500
  with the error text. Failures of the store itself are outside the model.
* `req.user = decoded.id; next()` is rendered by passing the identity to `next`
  as an explicit argument; each route handler receives it as `user`. The route
  handlers are `async` functions, so the call `next()` never throws into the
  `try` of the guard.
* `const byCategory = {}` is an ordinary JavaScript object: reading a key
  that is not an own property falls through to `Object.prototype`.
-/

set_option exponentiation.threshold 5000

namespace ExpenseTracker

/-! ## JavaScript numbers -/

/-- A JavaScript number. Every finite binary64 value is a whole multiple of
`2^-1074`; `fin k` stands for `k · 2^-1074`. -/
inductive Double where
  | nan
  | inf (negative : Bool)
  | fin (k : Int)
deriving DecidableEq, Repr

/-- Number of binary digits of `n`, found by trying the shifts in turn. -/
def bitLengthFrom : List Nat → Nat → Nat
  | [], n => if n = 0 then 0 else 1
  | s :: ss, n => if 2 ^ s ≤ n then s + bitLengthFrom ss (n / 2 ^ s) else bitLengthFrom ss n

/-- Number of binary digits of `n` (for `n < 2^4096`). -/
def bitLength (n : Nat) : Nat :=
  bitLengthFrom [2048, 1024, 512, 256, 128, 64, 32, 16, 8, 4, 2, 1] n

/-- The binary64 value nearest to `num / den` units of `2^-1074`, ties to even:
the quotient keeps 53 significant bits (fewer in the subnormal range), and a
result of `2^1024` or more is `Infinity`. -/
def roundFrac (num den : Nat) : Double :=
  let s := bitLength (num / den) - 53
  let d := den * 2 ^ s
  let q := num / d
  let r := num % d
  let q1 := if 2 * r < d then q else if d < 2 * r then q + 1 else if q % 2 = 0 then q else q + 1
  if 2 ^ 2098 ≤ q1 * 2 ^ s then .inf false else .fin ((q1 * 2 ^ s : Nat) : Int)

/-- Unary minus. -/
def Double.neg : Double → Double
  | .nan => .nan
  | .inf b => .inf (!b)
  | .fin k => .fin (-k)

/-- The binary64 value nearest to `k` units. -/
def roundInt (k : Int) : Double :=
  if k < 0 then (roundFrac k.natAbs 1).neg else roundFrac k.natAbs 1

/-- The operator `+` on two numbers. -/
def Double.add : Double → Double → Double
  | .nan, _ => .nan
  | _, .nan => .nan
  | .inf a, .inf b => if a = b then .inf a else .nan
  | .inf a, .fin _ => .inf a
  | .fin _, .inf b => .inf b
  | .fin a, .fin b => roundInt (a + b)

/-- The operator `-` on two numbers. -/
def Double.sub (x y : Double) : Double := x.add y.neg

/-- The comparison `x < y`, false as soon as NaN is involved. -/
def Double.lt : Double → Double → Bool
  | .nan, _ => false
  | _, .nan => false
  | .inf a, .inf b => a && !b
  | .inf a, .fin _ => a
  | .fin _, .inf b => !b
  | .fin a, .fin b => decide (a < b)

/-- The call `Math.max(x, y)`. -/
def Double.max : Double → Double → Double
  | .nan, _ => .nan
  | _, .nan => .nan
  | x, y => if x.lt y then y else x

/-- One, in units of `2^-1074`. -/
def unit : Nat := 2 ^ 1074

/-- The number denoted by an integer literal. -/
def Double.ofInt (z : Int) : Double := roundInt (z * (unit : Int))

instance : OfNat Double n := ⟨Double.ofInt n⟩

/-! ### `Number::toString` -/

/-- The power `10^e` as a fraction. -/
def pow10 (e : Int) : Nat × Nat :=
  if 0 ≤ e then (10 ^ e.toNat, 1) else (1, 10 ^ (-e).toNat)

/-- Whether `num / den < 10^e`. -/
def ltPow10 (num den : Nat) (e : Int) : Bool :=
  decide (num * (pow10 e).2 < den * (pow10 e).1)

/-- Raise `n` until `num / den < 10^n`. -/
def decExpUp : Nat → Nat → Nat → Int → Int
  | 0, _, _, n => n
  | fuel + 1, num, den, n => if ltPow10 num den n then n else decExpUp fuel num den (n + 1)

/-- Lower `n` while `num / den < 10^(n-1)`. -/
def decExpDown : Nat → Nat → Nat → Int → Int
  | 0, _, _, n => n
  | fuel + 1, num, den, n =>
    if ltPow10 num den (n - 1) then decExpDown fuel num den (n - 1) else n

/-- The `n` with `10^(n-1) ≤ num / den < 10^n`, searched from an estimate. -/
def decExp (num den : Nat) : Int :=
  let est : Int := (((bitLength num : Int) - (bitLength den : Int)) * 1233) / 4096
  decExpDown 700 num den (decExpUp 700 num den est)

/-- The decimal `s · 10^(n - kd)` nearest to `k` units among those that round to
`k` units, if one exists; `s` is the floor of the scaled value or its successor. -/
def digitsAt (k : Nat) (n : Int) (kd : Nat) : Option Nat :=
  let p := pow10 (n - kd)
  let lo := (k * p.2) / (unit * p.1)
  let hi := lo + 1
  let okLo := roundFrac (lo * unit * p.1) p.2 == .fin k
  let okHi := roundFrac (hi * unit * p.1) p.2 == .fin k
  let dLo := k * p.2 - lo * unit * p.1
  let dHi := hi * unit * p.1 - k * p.2
  match okLo, okHi with
  | false, false => none
  | true, false => some lo
  | false, true => some hi
  | true, true =>
    if dLo < dHi then some lo else if dHi < dLo then some hi
    else if lo % 2 = 0 then some lo else some hi

/-- The shortest digit string that rounds back to `k` units, with its length. -/
def shortest : Nat → Nat → Int → Nat → Nat × Nat
  | 0, k, _, kd => (k, kd)
  | fuel + 1, k, n, kd =>
    match digitsAt k n kd with
    | some s => (s, kd)
    | none => shortest fuel k n (kd + 1)

/-- Drop trailing decimal zeros. -/
def stripZeros : Nat → Nat → Nat
  | 0, s => s
  | fuel + 1, s => if s ≠ 0 ∧ s % 10 = 0 then stripZeros fuel (s / 10) else s

def zeros (n : Nat) : String := String.mk (List.replicate n '0')

/-- The string of a positive finite number of `k` units. -/
def posToString (k : Nat) : String :=
  let n0 := decExp k unit
  let (s0, kd) := shortest 17 k n0 1
  let n : Int := n0 - kd + (toString s0).length
  let ds := toString (stripZeros 20 s0)
  let kk := ds.length
  if (kk : Int) ≤ n ∧ n ≤ 21 then ds ++ zeros (n - kk).toNat
  else if 0 < n ∧ n ≤ 21 then
    String.mk (ds.data.take n.toNat) ++ "." ++ String.mk (ds.data.drop n.toNat)
  else if -6 < n ∧ n ≤ 0 then "0." ++ zeros (-n).toNat ++ ds
  else
    let e := n - 1
    let es := (if e < 0 then "-" else "+") ++ toString e.natAbs
    if kk = 1 then ds ++ "e" ++ es
    else String.mk (ds.data.take 1) ++ "." ++ String.mk (ds.data.drop 1) ++ "e" ++ es

/-- The string a number converts to. -/
def Double.toJSString : Double → String
  | .nan => "NaN"
  | .inf false => "Infinity"
  | .inf true => "-Infinity"
  | .fin k =>
    if k = 0 then "0"
    else if k < 0 then "-" ++ posToString k.natAbs
    else posToString k.natAbs

/-- A stored field of schema type `Number` without validation: the key may be
missing, hold `null`, or hold a number. -/
inductive Amount where
  | absent
  | null
  | num (d : Double)
deriving DecidableEq, Repr

instance : OfNat Amount n := ⟨.num (OfNat.ofNat n)⟩

/-- The number an amount counts as under `+` with a number: `undefined` is NaN,
`null` is 0. -/
def Amount.toNumber : Amount → Double
  | .absent => .nan
  | .null => .fin 0
  | .num d => d

/-- The string an amount counts as under `+` with a string. -/
def Amount.toJSString : Amount → String
  | .absent => "undefined"
  | .null => "null"
  | .num d => d.toJSString

/-! ## Data model (lines 24-38) -/

abbrev ObjectId := Nat

/-- A document of the `User` collection (lines 24-30). -/
structure User where
  _id : ObjectId
  firstName : String
  lastName : String
  email : String
  password : String
  budget : Double
deriving DecidableEq, Repr

/-- A document of the `Expense` collection (lines 32-38). -/
structure Expense where
  _id : ObjectId
  user : ObjectId
  category : String
  amount : Amount
  date : Int
  note : String
deriving DecidableEq, Repr

/-! ## JavaScript values met by the `byCategory` loop -/

/-- Primitive results of `+`: a number or a string. -/
inductive Prim where
  | num (n : Double)
  | str (s : String)
deriving DecidableEq, Repr

/-- What a property read can yield: `undefined`, a primitive, or an object
(a function included), the latter carried by the string `ToPrimitive` gives. -/
inductive JSVal where
  | undefined
  | prim (p : Prim)
  | object (repr : String)
deriving DecidableEq, Repr

/-- The data properties every plain object inherits from `Object.prototype`,
each with the string its value converts to (V8 wording). -/
def objectPrototype : List (String × String) :=
  [ ("constructor", "function Object() \x7b [native code] \x7d"),
    ("__defineGetter__", "function __defineGetter__() \x7b [native code] \x7d"),
    ("__defineSetter__", "function __defineSetter__() \x7b [native code] \x7d"),
    ("hasOwnProperty", "function hasOwnProperty() \x7b [native code] \x7d"),
    ("__lookupGetter__", "function __lookupGetter__() \x7b [native code] \x7d"),
    ("__lookupSetter__", "function __lookupSetter__() \x7b [native code] \x7d"),
    ("isPrototypeOf", "function isPrototypeOf() \x7b [native code] \x7d"),
    ("propertyIsEnumerable", "function propertyIsEnumerable() \x7b [native code] \x7d"),
    ("toString", "function toString() \x7b [native code] \x7d"),
    ("valueOf", "function valueOf() \x7b [native code] \x7d"),
    ("toLocaleString", "function toLocaleString() \x7b [native code] \x7d") ]

/-- Own properties of a plain object whose prototype is `Object.prototype`,
in insertion order. -/
abbrev JSObject := List (String × Prim)

/-- Property read `o[k]`: own property first, then the accessor `__proto__`
(which returns `Object.prototype` itself), then the inherited properties. -/
def JSObject.get (o : JSObject) (k : String) : JSVal :=
  match o.lookup k with
  | some p => .prim p
  | none =>
    if k = "__proto__" then .object "[object Object]"
    else
      match objectPrototype.lookup k with
      | some r => .object r
      | none => .undefined

/-- Overwrite an own property in place, or append it. -/
def JSObject.put : JSObject → String → Prim → JSObject
  | [], k, p => [(k, p)]
  | (k', p') :: o, k, p => if k' = k then (k, p) :: o else (k', p') :: JSObject.put o k p

/-- Property write `o[k] = p` of a primitive: the `__proto__` setter ignores
primitives; any other key becomes (or stays) an own property. -/
def JSObject.set (o : JSObject) (k : String) (p : Prim) : JSObject :=
  if k = "__proto__" then o else JSObject.put o k p

/-- The expression `(x || 0) + amount` of line 124. The falsy values are
`undefined`, the numbers 0 and NaN, and the empty string; `+` adds numbers when
its left operand is a number and concatenates strings otherwise. -/
def orZeroPlus (x : JSVal) (amount : Amount) : Prim :=
  match x with
  | .undefined => .num ((Double.fin 0).add amount.toNumber)
  | .prim (.num n) =>
    .num ((if n = .fin 0 ∨ n = .nan then .fin 0 else n).add amount.toNumber)
  | .prim (.str s) =>
    if s = "" then .num ((Double.fin 0).add amount.toNumber)
    else .str (s ++ amount.toJSString)
  | .object r => .str (r ++ amount.toJSString)

/-! ## Requests, responses, world -/

/-- A value of the JSON body as far as `typeof` tells values apart. -/
inductive BodyVal where
  | absent
  | null
  | bool (b : Bool)
  | number (d : Double)
  | str (s : String)
  | object
deriving DecidableEq, Repr

/-- The operator `typeof`. -/
def BodyVal.typeOf : BodyVal → String
  | .absent => "undefined"
  | .null => "object"
  | .bool _ => "boolean"
  | .number _ => "number"
  | .str _ => "string"
  | .object => "object"

/-- The JSON body of a request: the fields the handlers destructure, plus a
client-supplied `user` field that no handler reads. The `password` is kept as
sent; `amount` and `budget` are given as Mongoose's `Number` cast leaves them,
and a body without `amount` has `amount := .absent`. -/
structure ReqBody where
  firstName : String := ""
  lastName : String := ""
  email : String := ""
  password : BodyVal := .absent
  budget : Double := .fin 0
  category : String := ""
  amount : Amount := .absent
  date : Int := 0
  note : String := ""
  user : Option ObjectId := none
deriving DecidableEq, Repr

/-- An inbound request: the value of `req.header("x-auth-token")` and the body. -/
structure Request where
  token : Option String
  body : ReqBody
deriving DecidableEq, Repr

/-- The `user` object of the login response (line 80). -/
structure PublicUser where
  id : ObjectId
  firstName : String
  email : String
  budget : Double
deriving DecidableEq, Repr

/-- The object sent by the analytics handler (lines 127-132). -/
structure Analytics where
  budget : Double
  totalSpent : Double
  remaining : Double
  byCategory : JSObject
deriving DecidableEq, Repr

/-- JSON bodies the handlers send. -/
inductive ResBody where
  | msg (msg : String)
  | budget (msg : String) (budget : Double)
  | expense (e : Expense)
  | list (l : List Expense)
  | login (token : String) (user : PublicUser)
  | analytics (a : Analytics)
deriving DecidableEq, Repr

structure Response where
  status : Nat
  body : ResBody
deriving DecidableEq, Repr

/-- The two collections, the id generator, and the responses sent so far. -/
structure World where
  users : List User
  expenses : List Expense
  nextId : ObjectId
  sent : List Response
deriving DecidableEq, Repr

/-- The payload `jwt.verify` returns. -/
structure Decoded where
  id : ObjectId
deriving DecidableEq, Repr

/-- The external libraries: `jwt.verify(token, JWT_SECRET)` (`none` when it
throws), `jwt.sign`, `bcrypt.hash(_, 10)` and `bcrypt.compare`; for the latter two
`.error msg` is a throw with message `msg`. -/
structure Lib where
  jwtVerify : String → Option Decoded
  jwtSign : ObjectId → String
  bcryptHash : BodyVal → Except String String
  bcryptCompare : BodyVal → String → Except String Bool

/-- Rendering of `res.status(s).json(b)`. -/
def send (w : World) (r : Response) : World :=
  { w with sent := w.sent ++ [r] }

/-! ## Store queries -/

/-- Query `User.findOne(\x7b email \x7d)`. -/
def findOne (users : List User) (email : String) : Option User :=
  users.find? (fun u => u.email == email)

/-- Query `User.findById(id)`. -/
def findById (users : List User) (id : ObjectId) : Option User :=
  users.find? (fun u => u._id == id)

/-- Rendering of `user.save()` for an existing document: the document with the
same `_id` is replaced. -/
def saveUser : List User → User → List User
  | [], _ => []
  | x :: xs, u => if x._id = u._id then u :: xs else x :: saveUser xs u

/-- Query `Expense.find(\x7b user \x7d)`. -/
def findExpenses (expenses : List Expense) (user : ObjectId) : List Expense :=
  expenses.filter (fun e => e.user == user)

/-- The order of `.sort(\x7b date: -1 \x7d)`: later dates first. -/
def dateDesc (a b : Expense) : Prop := b.date ≤ a.date

instance : DecidableRel dateDesc := fun a b => inferInstanceAs (Decidable (b.date ≤ a.date))

instance : IsTotal Expense dateDesc := ⟨fun a b => le_total b.date a.date⟩

instance : IsTrans Expense dateDesc :=
  ⟨fun a b c (hab : b.date ≤ a.date) (hbc : c.date ≤ b.date) => le_trans hbc hab⟩

/-- Rendering of `.sort(\x7b date: -1 \x7d)`. -/
def sortByDateDesc (l : List Expense) : List Expense :=
  l.insertionSort dateDesc

/-! ## Access guard (lines 41-49) -/

/-- The middleware `auth(req, res, next)`. A missing header and the empty
string are both falsy for `!token`. -/
def auth (lib : Lib) (req : Request) (next : ObjectId → Request → World → World)
    (w : World) : World :=
  match req.token with
  | none => send w ⟨401, .msg "No token"⟩
  | some token =>
    if token = "" then send w ⟨401, .msg "No token"⟩
    else
      match lib.jwtVerify token with
      | some decoded => next decoded.id req w
      | none => send w ⟨401, .msg "Invalid token"⟩

/-! ## Route handlers -/

/-- Route `POST /api/auth/register` (lines 54-65). A throw of `bcrypt.hash` is
caught at line 64 before anything is saved. -/
def registerHandler (lib : Lib) (req : Request) (w : World) : World :=
  match findOne w.users req.body.email with
  | some _ => send w ⟨400, .msg "User exists"⟩
  | none =>
    match lib.bcryptHash req.body.password with
    | .error message => send w ⟨500, .msg message⟩
    | .ok hash =>
      let user : User :=
        { _id := w.nextId, firstName := req.body.firstName, lastName := req.body.lastName,
          email := req.body.email, password := hash, budget := 0 }
      send { w with users := w.users ++ [user], nextId := w.nextId + 1 }
        ⟨200, .msg "Registered successfully"⟩

/-- Route `POST /api/auth/login` (lines 68-83). A throw of `bcrypt.compare` is
caught at line 82. -/
def loginHandler (lib : Lib) (req : Request) (w : World) : World :=
  match findOne w.users req.body.email with
  | none => send w ⟨400, .msg "Invalid credentials"⟩
  | some user =>
    match lib.bcryptCompare req.body.password user.password with
    | .error message => send w ⟨500, .msg message⟩
    | .ok isMatch =>
      if !isMatch then
        send w ⟨400, .msg "Invalid credentials"⟩
      else
        let token := lib.jwtSign user._id
        send w ⟨200, .login token
          { id := user._id, firstName := user.firstName, email := user.email,
            budget := user.budget }⟩

/-- Handler of `POST /api/budget` behind `auth` (lines 86-95). -/
def budgetHandler (user : ObjectId) (req : Request) (w : World) : World :=
  match findById w.users user with
  | none => send w ⟨404, .msg "User not found"⟩
  | some u =>
    let u1 : User := { u with budget := req.body.budget }
    send { w with users := saveUser w.users u1 } ⟨200, .budget "Budget updated" u1.budget⟩

/-- Handler of `POST /api/expenses` behind `auth` (lines 98-105). -/
def addExpenseHandler (user : ObjectId) (req : Request) (w : World) : World :=
  let exp : Expense :=
    { _id := w.nextId, user := user, category := req.body.category,
      amount := req.body.amount, date := req.body.date, note := req.body.note }
  send { w with expenses := w.expenses ++ [exp], nextId := w.nextId + 1 } ⟨200, .expense exp⟩

/-- Handler of `GET /api/expenses` behind `auth` (lines 108-113). -/
def getExpensesHandler (user : ObjectId) (_req : Request) (w : World) : World :=
  let list := sortByDateDesc (findExpenses w.expenses user)
  send w ⟨200, .list list⟩

/-- The reduction `expenses.reduce((s,e)=>s+e.amount,0)` of line 121: the
accumulator is a number throughout, so each `+` is numeric. -/
def totalOf (expenses : List Expense) : Double :=
  expenses.foldl (fun s e => s.add e.amount.toNumber) (.fin 0)

/-- The loop of lines 122-125 filling `byCategory`. -/
def byCategoryOf (expenses : List Expense) : JSObject :=
  expenses.foldl (fun o e => JSObject.set o e.category (orZeroPlus (JSObject.get o e.category) e.amount))
    []

/-- The message of the `TypeError` V8 raises for `user.budget` when `user` is `null`. -/
def nullBudgetError : String := "Cannot read properties of null (reading 'budget')"

/-- Handler of `GET /api/analytics` behind `auth` (lines 116-134). With `user`
being `null` the read `user.budget` throws and the `catch` answers 500. -/
def analyticsHandler (user : ObjectId) (_req : Request) (w : World) : World :=
  let userDoc := findById w.users user
  let expenses := findExpenses w.expenses user
  let total := totalOf expenses
  let byCategory := byCategoryOf expenses
  match userDoc with
  | none => send w ⟨500, .msg nullBudgetError⟩
  | some u =>
    send w ⟨200, .analytics
      { budget := u.budget, totalSpent := total, remaining := Double.max (.fin 0) (u.budget.sub total),
        byCategory := byCategory }⟩

/-! ## Routes: the guard composed with its handler -/

def postBudget (lib : Lib) (req : Request) (w : World) : World :=
  auth lib req budgetHandler w

def postExpenses (lib : Lib) (req : Request) (w : World) : World :=
  auth lib req addExpenseHandler w

def getExpenses (lib : Lib) (req : Request) (w : World) : World :=
  auth lib req getExpensesHandler w

def getAnalytics (lib : Lib) (req : Request) (w : World) : World :=
  auth lib req analyticsHandler w

/-- The six routes registered on `app`. -/
inductive Route where
  | register
  | login
  | postBudget
  | postExpenses
  | getExpenses
  | getAnalytics
deriving DecidableEq, Repr

/-- One request served: dispatch on the route. -/
def serve (lib : Lib) (w : World) (r : Route × Request) : World :=
  match r.1 with
  | .register => registerHandler lib r.2 w
  | .login => loginHandler lib r.2 w
  | .postBudget => postBudget lib r.2 w
  | .postExpenses => postExpenses lib r.2 w
  | .getExpenses => getExpenses lib r.2 w
  | .getAnalytics => getAnalytics lib r.2 w

/-- A sequence of requests served one after the other. -/
def serveAll (lib : Lib) (w : World) (rs : List (Route × Request)) : World :=
  rs.foldl (serve lib) w

/-- The emails on record, in storage order. -/
def emails (w : World) : List String :=
  w.users.map (fun u => u.email)

/-! ## Sample data -/

/-- A stand-in for the libraries: one valid token per user id 1 and 2, reversal
as the digest, and the `typeof` check with which `bcryptjs` throws on a password
that is not a string. -/
def sampleLib : Lib where
  jwtVerify := fun t =>
    if t = "token-1" then some ⟨1⟩ else if t = "token-2" then some ⟨2⟩ else none
  jwtSign := fun id => "token-" ++ toString id
  bcryptHash := fun p =>
    match p with
    | .str s => .ok (String.mk s.data.reverse)
    | v => .error ("Illegal arguments: " ++ v.typeOf ++ ", number")
  bcryptCompare := fun p h =>
    match p with
    | .str s => .ok (String.mk s.data.reverse == h)
    | v => .error ("Illegal arguments: " ++ v.typeOf ++ ", string")

def sampleUser : User :=
  { _id := 1, firstName := "Ada", lastName := "L", email := "ada@example.org",
    password := "terces", budget := 80 }

def otherUser : User :=
  { _id := 2, firstName := "Bob", lastName := "M", email := "bob@example.org",
    password := "drowssap", budget := 500 }

def sampleExpenses : List Expense :=
  [ { _id := 10, user := 1, category := "A", amount := 30, date := 5, note := "" },
    { _id := 11, user := 1, category := "B", amount := 20, date := 7, note := "" },
    { _id := 12, user := 2, category := "A", amount := 9, date := 9, note := "" },
    { _id := 13, user := 1, category := "A", amount := 50, date := 6, note := "" } ]

def sampleWorld : World :=
  { users := [sampleUser, otherUser], expenses := sampleExpenses, nextId := 14, sent := [] }

/-- A store in which nobody is registered. -/
def emptyWorld : World :=
  { users := [], expenses := [], nextId := 0, sent := [] }

def bareRequest : Request := { token := none, body := {} }

/-- A store whose only user has spent under the labels `constructor` and `__proto__`. -/
def prototypeWorld : World :=
  { users := [sampleUser],
    expenses :=
      [ { _id := 10, user := 1, category := "constructor", amount := 30, date := 5, note := "" },
        { _id := 11, user := 1, category := "__proto__", amount := 20, date := 6, note := "" } ],
    nextId := 12, sent := [] }



/-- The sample store after user 1 has sent `POST /api/expenses` with a category
and no amount. -/
def blankExpenseWorld : World :=
  postExpenses sampleLib ⟨some "token-1", { category := "misc" }⟩ sampleWorld

/-- A store whose only user has spent `2^53` and then 1. -/
def largeWorld : World :=
  { users := [sampleUser],
    expenses :=
      [ { _id := 10, user := 1, category := "A",
          amount := .num (.fin ((2 ^ 53 * unit : Nat) : Int)), date := 5, note := "" },
        { _id := 11, user := 1, category := "A", amount := 1, date := 6, note := "" } ],
    nextId := 12, sent := [] }

/-! ## Vocabulary for sums -/

/-- The integer an amount holds, 0 when it holds none. -/
def Amount.whole : Amount → Int
  | .num (.fin k) => k / (unit : Int)
  | _ => 0

/-- The amount is a number with an integer value. -/
def Amount.isWhole (a : Amount) : Prop :=
  a = .num (.fin (a.whole * (unit : Int)))

instance : DecidablePred Amount.isWhole :=
  fun a => inferInstanceAs (Decidable (a = .num (.fin (a.whole * (unit : Int)))))

/-- The exact sum of the integers held by the amounts. -/
def wholeSum (l : List Expense) : Int :=
  (l.map (fun e => e.amount.whole)).sum

/-- The sum of their magnitudes. -/
def wholeAbsSum (l : List Expense) : Nat :=
  (l.map (fun e => e.amount.whole.natAbs)).sum

/-- A label that no property of `Object.prototype` answers to. -/
def plainLabel (k : String) : Prop :=
  k ≠ "__proto__" ∧ objectPrototype.lookup k = none

/-- The integer held under `k`, 0 when `k` is no own property. -/
def wholeAt (o : JSObject) (k : String) : Int :=
  match o.lookup k with
  | some (.num (.fin v)) => v / (unit : Int)
  | _ => 0

/-- Every own property holds an integer-valued number. -/
def allWhole (o : JSObject) : Prop :=
  ∀ k p, o.lookup k = some p → p = .num (.fin (wholeAt o k * (unit : Int)))

/-! ## Facts about numbers -/

theorem bitLengthFrom_le (ss : List Nat) (n b : Nat) (h : n < 2 ^ b) :
    bitLengthFrom ss n ≤ b := by
  induction ss generalizing n b with
  | nil =>
    unfold bitLengthFrom
    split
    · exact Nat.zero_le _
    · rename_i hn
      rcases Nat.eq_zero_or_pos b with hb | hb
      · subst hb
        simp at h
        exact absurd h hn
      · exact hb
  | cons s ss ih =>
    unfold bitLengthFrom
    split
    · rename_i hs
      have hsb : s ≤ b := by
        by_contra hc
        have hlt : b < s := Nat.lt_of_not_le hc
        have : 2 ^ b < 2 ^ s := Nat.pow_lt_pow_right (by norm_num) hlt
        omega
      have hdiv : n / 2 ^ s < 2 ^ (b - s) := by
        rw [Nat.div_lt_iff_lt_mul (Nat.two_pow_pos _)]
        rw [← Nat.pow_add, Nat.sub_add_cancel hsb]
        exact h
      have := ih (n / 2 ^ s) (b - s) hdiv
      omega
    · exact ih n b h

theorem bitLength_le (n b : Nat) (h : n < 2 ^ b) : bitLength n ≤ b :=
  bitLengthFrom_le _ n b h

/-- A value that needs no rounding is returned as it is. -/
theorem roundFrac_exact (n : Nat) (hdvd : 2 ^ (bitLength n - 53) ∣ n) (hlt : n < 2 ^ 2098) :
    roundFrac n 1 = .fin (n : Int) := by
  unfold roundFrac
  simp only [Nat.div_one, one_mul]
  have hpos : 0 < 2 ^ (bitLength n - 53) := Nat.two_pow_pos _
  have hr : n % 2 ^ (bitLength n - 53) = 0 := Nat.mod_eq_zero_of_dvd hdvd
  have hq : n / 2 ^ (bitLength n - 53) * 2 ^ (bitLength n - 53) = n :=
    Nat.div_mul_cancel hdvd
  simp only [hr, Nat.mul_zero, hpos, if_true, hq]
  rw [if_neg (by omega)]

theorem roundInt_whole (z : Int) (hz : z.natAbs < 2 ^ 53) :
    roundInt (z * (unit : Int)) = .fin (z * (unit : Int)) := by
  have habs : (z * (unit : Int)).natAbs = z.natAbs * unit := by
    rw [Int.natAbs_mul, Int.natAbs_ofNat]
  have hlt : z.natAbs * unit < 2 ^ 1127 := by
    have : z.natAbs * unit < 2 ^ 53 * unit :=
      Nat.mul_lt_mul_of_pos_right hz (Nat.two_pow_pos _)
    have e : (2 : Nat) ^ 53 * unit = 2 ^ 1127 := by
      rw [unit, ← Nat.pow_add]
    omega
  have hlen : bitLength (z.natAbs * unit) ≤ 1127 := bitLength_le _ _ hlt
  have hdvd : 2 ^ (bitLength (z.natAbs * unit) - 53) ∣ z.natAbs * unit := by
    apply Dvd.dvd.mul_left
    have hs : bitLength (z.natAbs * unit) - 53 ≤ 1074 := by omega
    exact (Nat.pow_dvd_pow 2 hs : 2 ^ (bitLength (z.natAbs * unit) - 53) ∣ 2 ^ 1074)
  have hbig : z.natAbs * unit < 2 ^ 2098 :=
    lt_trans hlt (Nat.pow_lt_pow_right (by norm_num) (by norm_num))
  have hex := roundFrac_exact (z.natAbs * unit) hdvd hbig
  unfold roundInt
  rw [habs, hex]
  have hcast : ((z.natAbs * unit : Nat) : Int) = |z| * (unit : Int) := by
    simp
  have hupos : (0 : Int) < (unit : Int) := by
    have : 0 < unit := Nat.two_pow_pos _
    exact_mod_cast this
  split
  · rename_i hneg
    have hzneg : z < 0 := by
      by_contra hc
      have : 0 ≤ z * (unit : Int) := mul_nonneg (not_lt.1 hc) hupos.le
      omega
    simp only [Double.neg, hcast, abs_of_neg hzneg]
    congr 1
    ring
  · rename_i hnn
    have hznn : 0 ≤ z := by
      by_contra hc
      have : z * (unit : Int) < 0 := mul_neg_of_neg_of_pos (not_le.1 hc) hupos
      exact hnn this
    rw [hcast, abs_of_nonneg hznn]

theorem add_whole (a b : Int) (h : (a + b).natAbs < 2 ^ 53) :
    (Double.fin (a * (unit : Int))).add (.fin (b * (unit : Int)))
      = .fin ((a + b) * (unit : Int)) := by
  simp only [Double.add]
  rw [← add_mul]
  exact roundInt_whole _ h

theorem add_nan (x : Double) : x.add .nan = .nan := by
  cases x <;> rfl

theorem nan_add (x : Double) : Double.nan.add x = .nan := by
  cases x <;> rfl

theorem zero_eq_fin : (0 : Double) = .fin 0 := by decide

/-- A rounded non-negative magnitude is `Infinity` or a non-negative finite value. -/
theorem roundFrac_sign (num den : Nat) :
    roundFrac num den = .inf false ∨ ∃ r : Nat, roundFrac num den = .fin (r : Int) := by
  unfold roundFrac
  simp only
  split_ifs <;> first | exact Or.inl rfl | exact Or.inr ⟨_, rfl⟩

/-- The call `Math.max(0, x)` never returns a number below 0. -/
theorem max_zero_not_neg (x : Double) : ((Double.fin 0).max x).lt (.fin 0) = false := by
  cases x with
  | nan => rfl
  | inf b => cases b <;> rfl
  | fin k =>
    simp only [Double.max, Double.lt]
    by_cases h : (0 : Int) < k
    · simp [h, Double.lt]
      omega
    · simp [h, Double.lt]

/-- When the minuend is below the subtrahend, `Math.max(0, x - y)` is 0. -/
theorem max_zero_sub_of_lt (x y : Double) (h : x.lt y = true) :
    (Double.fin 0).max (x.sub y) = .fin 0 := by
  cases x with
  | nan => simp [Double.lt] at h
  | inf a =>
    cases y with
    | nan => simp [Double.lt] at h
    | inf b =>
      cases a <;> cases b <;> simp [Double.lt] at h
      rfl
    | fin k =>
      cases a <;> simp [Double.lt] at h
      rfl
  | fin j =>
    cases y with
    | nan => simp [Double.lt] at h
    | inf b =>
      cases b <;> simp [Double.lt] at h
      rfl
    | fin k =>
      simp only [Double.lt, decide_eq_true_eq] at h
      have hneg : j + -k < 0 := by omega
      simp only [Double.sub, Double.neg, Double.add, roundInt, hneg, if_true]
      rcases roundFrac_sign (j + -k).natAbs 1 with e | ⟨r, e⟩
      · rw [e]; rfl
      · rw [e]
        simp only [Double.neg, Double.max, Double.lt]
        have : ¬ (0 : Int) < -(r : Int) := by omega
        simp [this]


theorem unit_pos : (0 : Int) < (unit : Int) := by
  have : 0 < unit := Nat.two_pow_pos _
  exact_mod_cast this

theorem sub_nan (x : Double) : x.sub .nan = .nan := by
  cases x <;> rfl

theorem max_zero_eq_nan (x : Double) : (Double.fin 0).max x = .nan ↔ x = .nan := by
  cases x with
  | nan => exact ⟨fun _ => rfl, fun _ => rfl⟩
  | inf b => cases b <;> simp [Double.max, Double.lt]
  | fin k =>
    simp only [Double.max]
    constructor
    · intro h
      split at h <;> exact Double.noConfusion h
    · intro h
      exact Double.noConfusion h

theorem max_zero_nonneg (x : Double) (hx : x ≠ .nan) :
    (Double.fin 0).max x = .fin 0 ∨ (Double.fin 0).lt ((Double.fin 0).max x) = true := by
  cases x with
  | nan => exact absurd rfl hx
  | inf b => cases b <;> simp [Double.max, Double.lt]
  | fin k =>
    simp only [Double.max]
    by_cases h : (Double.fin 0).lt (.fin k) = true
    · rw [if_pos h]
      exact Or.inr h
    · rw [if_neg h]
      exact Or.inl rfl

/-! ## Facts about the total -/

theorem foldl_add_nan (l : List Expense) :
    l.foldl (fun (s : Double) (e : Expense) => s.add e.amount.toNumber) .nan = .nan := by
  induction l with
  | nil => rfl
  | cons e l ih => rw [List.foldl_cons, nan_add, ih]

theorem foldl_add_absent (l : List Expense) (s : Double)
    (h : ∃ e ∈ l, e.amount = .absent) :
    l.foldl (fun (s : Double) (e : Expense) => s.add e.amount.toNumber) s = .nan := by
  induction l generalizing s with
  | nil =>
    obtain ⟨e, he, _⟩ := h
    exact absurd he (List.not_mem_nil e)
  | cons x l ih =>
    rw [List.foldl_cons]
    by_cases hx : x.amount = .absent
    · rw [hx]
      simp only [Amount.toNumber, add_nan]
      exact foldl_add_nan l
    · apply ih
      obtain ⟨e, he, hea⟩ := h
      rcases List.mem_cons.1 he with rfl | hl
      · exact absurd hea hx
      · exact ⟨e, hl, hea⟩

theorem foldl_add_whole (l : List Expense) (s : Int)
    (hw : ∀ e ∈ l, e.amount.isWhole) (hb : s.natAbs + wholeAbsSum l < 2 ^ 53) :
    l.foldl (fun (s : Double) (e : Expense) => s.add e.amount.toNumber)
        (.fin (s * (unit : Int)))
      = .fin ((s + wholeSum l) * (unit : Int)) := by
  induction l generalizing s with
  | nil => simp [wholeSum]
  | cons e l ih =>
    have he : e.amount.isWhole := hw e (List.mem_cons_self e l)
    have hsum : wholeAbsSum (e :: l) = e.amount.whole.natAbs + wholeAbsSum l := by
      simp [wholeAbsSum]
    have hws : wholeSum (e :: l) = e.amount.whole + wholeSum l := by
      simp [wholeSum]
    have habs : (s + e.amount.whole).natAbs ≤ s.natAbs + e.amount.whole.natAbs :=
      Int.natAbs_add_le _ _
    rw [List.foldl_cons]
    have hstep : (Double.fin (s * (unit : Int))).add e.amount.toNumber
        = .fin ((s + e.amount.whole) * (unit : Int)) := by
      have : e.amount.toNumber = .fin (e.amount.whole * (unit : Int)) := by
        conv_lhs => rw [he]
        rfl
      rw [this]
      exact add_whole _ _ (by omega)
    rw [hstep, ih (s + e.amount.whole) (fun x hx => hw x (List.mem_cons_of_mem e hx))
      (by omega), hws, add_assoc]

theorem totalOf_whole (l : List Expense)
    (hw : ∀ e ∈ l, e.amount.isWhole) (hb : wholeAbsSum l < 2 ^ 53) :
    totalOf l = .fin (wholeSum l * (unit : Int)) := by
  have := foldl_add_whole l 0 hw (by simpa using hb)
  simpa [totalOf] using this


/-! ## Analytics: total and remaining -/

/-- C1 fails as stated: once user 1 has stored an expense without amount, the
handler answers with `totalSpent` and `remaining` both NaN. The answer is neither 0
nor a number above 0, although the amounts on record (30, 20, 50) exceed the budget
of 80, for which the claim promises 0. -/
theorem analytics_remaining_nan :
    findById blankExpenseWorld.users 1 = some sampleUser ∧
    (findExpenses blankExpenseWorld.expenses 1).map (fun e => e.amount)
      = [30, 20, 50, .absent] ∧
    (analyticsHandler 1 bareRequest blankExpenseWorld).sent =
      [⟨200, .expense
          { _id := 14, user := 1, category := "misc", amount := .absent, date := 0,
            note := "" }⟩,
       ⟨200, .analytics
          { budget := 80, totalSpent := .nan, remaining := .nan,
            byCategory := [("A", .num 80), ("B", .num 20), ("misc", .num .nan)] }⟩] ∧
    Double.nan ≠ .fin 0 ∧ (Double.fin 0).lt .nan = false := by
  decide

/-- C1 as amended: when the identity resolves to a user record, `GET /api/analytics`
answers 200 with `remaining = Math.max(0, budget - totalSpent)` in double arithmetic,
for that record's budget and the returned total. `remaining` is never below 0 and is
0 whenever the total exceeds the budget. It is NaN exactly when `budget - totalSpent`
is NaN, which is the case as soon as a fetched expense has no amount; otherwise it
is 0 or a number above 0. -/
theorem analytics_remaining_max (user : ObjectId) (req : Request) (w : World) (u : User)
    (hu : findById w.users user = some u) :
    ∃ a : Analytics, analyticsHandler user req w = send w ⟨200, .analytics a⟩ ∧
      a.budget = u.budget ∧
      a.totalSpent = totalOf (findExpenses w.expenses user) ∧
      a.remaining = Double.max (.fin 0) (a.budget.sub a.totalSpent) ∧
      a.remaining.lt (.fin 0) = false ∧
      (a.budget.lt a.totalSpent = true → a.remaining = .fin 0) ∧
      (a.remaining = .nan ↔ a.budget.sub a.totalSpent = .nan) ∧
      ((∃ e ∈ findExpenses w.expenses user, e.amount = .absent) →
        a.totalSpent = .nan ∧ a.remaining = .nan) ∧
      (a.remaining ≠ .nan →
        a.remaining = .fin 0 ∨ (Double.fin 0).lt a.remaining = true) := by
  refine ⟨{ budget := u.budget, totalSpent := totalOf (findExpenses w.expenses user),
             remaining :=
               Double.max (.fin 0) (u.budget.sub (totalOf (findExpenses w.expenses user))),
             byCategory := byCategoryOf (findExpenses w.expenses user) },
    ?_, rfl, rfl, rfl, ?_, ?_, ?_, ?_, ?_⟩
  · simp only [analyticsHandler, hu]
  · exact max_zero_not_neg _
  · intro h
    exact max_zero_sub_of_lt _ _ h
  · exact max_zero_eq_nan _
  · intro h
    have ht : totalOf (findExpenses w.expenses user) = .nan := foldl_add_absent _ _ h
    refine ⟨ht, ?_⟩
    simp only [ht, sub_nan]
    rfl
  · intro h
    apply max_zero_nonneg
    intro hx
    exact h ((max_zero_eq_nan _).2 hx)

/-- C1 as amended, at the amounts 30, 20, 50 against a budget of 80: the remaining
amount is 0. -/
theorem analytics_remaining_max_witness :
    findById sampleWorld.users 1 = some sampleUser ∧
    (∃ a : Analytics, analyticsHandler 1 bareRequest sampleWorld
        = send sampleWorld ⟨200, .analytics a⟩ ∧
      a.budget = sampleUser.budget ∧
      a.totalSpent = totalOf (findExpenses sampleWorld.expenses 1) ∧
      a.remaining = Double.max (.fin 0) (a.budget.sub a.totalSpent) ∧
      a.remaining.lt (.fin 0) = false ∧
      (a.budget.lt a.totalSpent = true → a.remaining = .fin 0) ∧
      (a.remaining = .nan ↔ a.budget.sub a.totalSpent = .nan) ∧
      ((∃ e ∈ findExpenses sampleWorld.expenses 1, e.amount = .absent) →
        a.totalSpent = .nan ∧ a.remaining = .nan) ∧
      (a.remaining ≠ .nan →
        a.remaining = .fin 0 ∨ (Double.fin 0).lt a.remaining = true)) ∧
    (analyticsHandler 1 bareRequest sampleWorld).sent =
      [⟨200, .analytics
        { budget := 80, totalSpent := 100, remaining := 0,
          byCategory := [("A", .num 80), ("B", .num 20)] }⟩] :=
  ⟨by decide, analytics_remaining_max 1 bareRequest sampleWorld sampleUser (by decide),
    by decide⟩

/-- C3 fails as stated, in two ways. With the stored amounts `2^53` and 1 the
returned total is `2^53`, not their sum `2^53 + 1`. With the stored amounts 30, 20,
50 and one expense without amount the returned total is NaN. -/
theorem analytics_totalSpent_not_sum :
    ((findExpenses largeWorld.expenses 1).map (fun e => e.amount)
        = [.num (.fin ((2 ^ 53 * unit : Nat) : Int)), .num (.fin ((1 * unit : Nat) : Int))] ∧
      (analyticsHandler 1 bareRequest largeWorld).sent =
        [⟨200, .analytics
            { budget := 80, totalSpent := .fin ((2 ^ 53 * unit : Nat) : Int), remaining := 0,
              byCategory := [("A", .num (.fin ((2 ^ 53 * unit : Nat) : Int)))] }⟩] ∧
      Double.fin ((2 ^ 53 * unit : Nat) : Int) ≠ .fin (((2 ^ 53 + 1) * unit : Nat) : Int)) ∧
    ((findExpenses blankExpenseWorld.expenses 1).map (fun e => e.amount)
        = [30, 20, 50, .absent] ∧
      totalOf (findExpenses blankExpenseWorld.expenses 1) = .nan) := by
  decide

/-- C3 as amended: when the identity resolves to a user record, the `totalSpent`
returned by `GET /api/analytics` is the left-to-right sum, in double arithmetic and
starting from 0, of the `amount` fields of the expenses fetched for that identity,
an absent amount counting as NaN and `null` as 0. It is 0 when no expense is
fetched and NaN as soon as one amount is absent. When every amount is an integer and
the magnitudes add up to less than `2^53`, it is the exact sum of the amounts. -/
theorem analytics_totalSpent_fold (user : ObjectId) (req : Request) (w : World) (u : User)
    (hu : findById w.users user = some u) :
    ∃ a : Analytics, analyticsHandler user req w = send w ⟨200, .analytics a⟩ ∧
      a.totalSpent
        = (findExpenses w.expenses user).foldl
            (fun (s : Double) (e : Expense) => s.add e.amount.toNumber) (.fin 0) ∧
      (findExpenses w.expenses user = [] → a.totalSpent = 0) ∧
      ((∃ e ∈ findExpenses w.expenses user, e.amount = .absent) → a.totalSpent = .nan) ∧
      ((∀ e ∈ findExpenses w.expenses user, e.amount.isWhole) →
        wholeAbsSum (findExpenses w.expenses user) < 2 ^ 53 →
        a.totalSpent = .fin (wholeSum (findExpenses w.expenses user) * (unit : Int))) := by
  refine ⟨{ budget := u.budget, totalSpent := totalOf (findExpenses w.expenses user),
             remaining :=
               Double.max (.fin 0) (u.budget.sub (totalOf (findExpenses w.expenses user))),
             byCategory := byCategoryOf (findExpenses w.expenses user) },
    ?_, rfl, ?_, ?_, ?_⟩
  · simp only [analyticsHandler, hu]
  · intro h
    simp only [h, totalOf, List.foldl_nil]
    exact zero_eq_fin.symm
  · intro h
    exact foldl_add_absent _ _ h
  · intro hw hb
    exact totalOf_whole _ hw hb

/-- C3 as amended, at the amounts 30, 20, 50: the total is 100. -/
theorem analytics_totalSpent_fold_witness :
    findById sampleWorld.users 1 = some sampleUser ∧
    (∃ a : Analytics, analyticsHandler 1 bareRequest sampleWorld
        = send sampleWorld ⟨200, .analytics a⟩ ∧
      a.totalSpent
        = (findExpenses sampleWorld.expenses 1).foldl
            (fun (s : Double) (e : Expense) => s.add e.amount.toNumber) (.fin 0) ∧
      (findExpenses sampleWorld.expenses 1 = [] → a.totalSpent = 0) ∧
      ((∃ e ∈ findExpenses sampleWorld.expenses 1, e.amount = .absent) →
        a.totalSpent = .nan) ∧
      ((∀ e ∈ findExpenses sampleWorld.expenses 1, e.amount.isWhole) →
        wholeAbsSum (findExpenses sampleWorld.expenses 1) < 2 ^ 53 →
        a.totalSpent
          = .fin (wholeSum (findExpenses sampleWorld.expenses 1) * (unit : Int)))) ∧
    ((findExpenses sampleWorld.expenses 1).map (fun e => e.amount)) = [30, 20, 50] ∧
    ((∀ e ∈ findExpenses sampleWorld.expenses 1, e.amount.isWhole) ∧
      wholeAbsSum (findExpenses sampleWorld.expenses 1) < 2 ^ 53 ∧
      wholeSum (findExpenses sampleWorld.expenses 1) = 100) ∧
    totalOf (findExpenses sampleWorld.expenses 1) = 100 :=
  ⟨by decide, analytics_totalSpent_fold 1 bareRequest sampleWorld sampleUser (by decide),
    by decide, by decide, by decide⟩

/-! ## Analytics: missing user -/

/-- Whenever the identity resolves to no user, the analytics handler answers 500;
the budget handler answers 404 on the same store. -/
theorem missing_user_statuses (user : ObjectId) (req : Request) (w : World)
    (hu : findById w.users user = none) :
    analyticsHandler user req w = send w ⟨500, .msg nullBudgetError⟩ ∧
    budgetHandler user req w = send w ⟨404, .msg "User not found"⟩ := by
  simp only [analyticsHandler, budgetHandler, hu, and_self]

/-- C4: on a store without users, a verified token for id 7 makes
`GET /api/analytics` answer 500 with the `TypeError` text, where
`POST /api/budget` answers 404 "User not found". -/
theorem analytics_missing_user_is_500 :
    findById emptyWorld.users 7 = none ∧
    (analyticsHandler 7 bareRequest emptyWorld).sent = [⟨500, .msg nullBudgetError⟩] ∧
    (budgetHandler 7 bareRequest emptyWorld).sent = [⟨404, .msg "User not found"⟩] := by
  decide


/-! ## Access guard -/

/-- C5: with a verifier that rejects the empty string (as `jwt.verify` does), the
guard fails closed. If the header is absent, or present but rejected, then whatever
`next` is, the guard only sends one 401 response: `next` plays no part and both
collections stay as they were. If the verifier accepts the token, the guard's
effect is exactly one call of `next` with the identity `decoded.id`, on the world
as the guard found it: the guard itself sends nothing. -/
theorem auth_fails_closed (lib : Lib) (hempty : lib.jwtVerify "" = none)
    (req : Request) (w : World) :
    ((req.token = none ∨ ∃ t, req.token = some t ∧ lib.jwtVerify t = none) →
      ∃ m, ∀ next : ObjectId → Request → World → World,
        auth lib req next w = send w ⟨401, .msg m⟩ ∧
        (auth lib req next w).users = w.users ∧
        (auth lib req next w).expenses = w.expenses) ∧
    (∀ t d, req.token = some t → lib.jwtVerify t = some d →
      ∀ next : ObjectId → Request → World → World,
        auth lib req next w = next d.id req w) := by
  constructor
  · rintro (h | ⟨t, h, hrej⟩)
    · exact ⟨"No token", fun next => by simp [auth, h, send]⟩
    · by_cases ht : t = ""
      · exact ⟨"No token", fun next => by simp [auth, h, ht, send]⟩
      · exact ⟨"Invalid token", fun next => by simp [auth, h, ht, hrej, send]⟩
  · intro t d h hacc next
    have ht : t ≠ "" := by
      rintro rfl
      rw [hempty] at hacc
      exact Option.noConfusion hacc
    simp [auth, h, ht, hacc]

/-- C5 on the sample store: no header gives a lone 401, the token of user 1 hands
over to `next` with identity 1. -/
theorem auth_fails_closed_witness :
    sampleLib.jwtVerify "" = none ∧
    (∃ m, ∀ next : ObjectId → Request → World → World,
        auth sampleLib bareRequest next sampleWorld = send sampleWorld ⟨401, .msg m⟩ ∧
        (auth sampleLib bareRequest next sampleWorld).users = sampleWorld.users ∧
        (auth sampleLib bareRequest next sampleWorld).expenses = sampleWorld.expenses) ∧
    (∀ next : ObjectId → Request → World → World,
        auth sampleLib ⟨some "token-1", {}⟩ next sampleWorld
          = next 1 ⟨some "token-1", {}⟩ sampleWorld) :=
  ⟨by decide,
   (auth_fails_closed sampleLib (by decide) bareRequest sampleWorld).1 (Or.inl rfl),
   (auth_fails_closed sampleLib (by decide) ⟨some "token-1", {}⟩ sampleWorld).2
      "token-1" ⟨1⟩ rfl (by decide)⟩

/-- C6 fails as stated: a request without token is answered 401 "No token", one with
a rejected token 401 "Invalid token"; the two responses differ in their body. -/
theorem auth_401_bodies_differ :
    (bareRequest.token = none ∧ sampleLib.jwtVerify "garbled" = none) ∧
    (auth sampleLib bareRequest addExpenseHandler sampleWorld).sent
      = [⟨401, .msg "No token"⟩] ∧
    (auth sampleLib ⟨some "garbled", {}⟩ addExpenseHandler sampleWorld).sent
      = [⟨401, .msg "Invalid token"⟩] ∧
    (auth sampleLib bareRequest addExpenseHandler sampleWorld).sent
      ≠ (auth sampleLib ⟨some "garbled", {}⟩ addExpenseHandler sampleWorld).sent := by
  decide

/-- C6 as amended: a request without token and a request whose token the verifier
rejects both get status 401 and a message-only body; the message is "No token"
for the absent token, "No token" again for an empty token, and "Invalid token" for
a rejected non-empty one. -/
theorem auth_401_same_status (lib : Lib) (req1 req2 : Request) (t : String)
    (next : ObjectId → Request → World → World) (w : World)
    (h1 : req1.token = none) (h2 : req2.token = some t) (hrej : lib.jwtVerify t = none) :
    ∃ m1 m2, auth lib req1 next w = send w ⟨401, .msg m1⟩ ∧
      auth lib req2 next w = send w ⟨401, .msg m2⟩ ∧
      m1 = "No token" ∧ m2 = (if t = "" then "No token" else "Invalid token") := by
  by_cases ht : t = ""
  · exact ⟨"No token", "No token", by simp [auth, h1], by simp [auth, h2, ht], rfl,
      by simp [ht]⟩
  · exact ⟨"No token", "Invalid token", by simp [auth, h1], by simp [auth, h2, ht, hrej], rfl,
      by simp [ht]⟩

/-- C6 as amended, on the sample store. -/
theorem auth_401_same_status_witness :
    (bareRequest.token = none ∧ (⟨some "garbled", {}⟩ : Request).token = some "garbled" ∧
      sampleLib.jwtVerify "garbled" = none) ∧
    ∃ m1 m2, auth sampleLib bareRequest addExpenseHandler sampleWorld
        = send sampleWorld ⟨401, .msg m1⟩ ∧
      auth sampleLib ⟨some "garbled", {}⟩ addExpenseHandler sampleWorld
        = send sampleWorld ⟨401, .msg m2⟩ ∧
      m1 = "No token" ∧
      m2 = (if "garbled" = "" then "No token" else "Invalid token") :=
  ⟨by decide,
   auth_401_same_status sampleLib bareRequest ⟨some "garbled", {}⟩ "garbled" addExpenseHandler
     sampleWorld rfl rfl (by decide)⟩

/-! ## Login -/

/-- On one store, a login whose email matches no user and a login whose email finds
a user but whose password `bcrypt.compare` returns false for leave the same world
behind: the store untouched and one response, status 400 "Invalid credentials". -/
theorem login_rejected_same (lib : Lib) (w : World) (req1 req2 : Request) (u : User)
    (hnone : ∀ x ∈ w.users, x.email ≠ req1.body.email)
    (hfound : findOne w.users req2.body.email = some u)
    (hbad : lib.bcryptCompare req2.body.password u.password = .ok false) :
    loginHandler lib req1 w = send w ⟨400, .msg "Invalid credentials"⟩ ∧
    loginHandler lib req2 w = send w ⟨400, .msg "Invalid credentials"⟩ := by
  have h1 : findOne w.users req1.body.email = none := by
    simp only [findOne, List.find?_eq_none]
    intro x hx
    simpa using hnone x hx
  constructor
  · simp only [loginHandler, h1]
  · simp [loginHandler, hfound, hbad]

/-- When `bcrypt.compare` throws, a login for a known email is answered 500 with
the error text. -/
theorem login_compare_throws (lib : Lib) (w : World) (req : Request) (u : User) (m : String)
    (hfound : findOne w.users req.body.email = some u)
    (hthrow : lib.bcryptCompare req.body.password u.password = .error m) :
    loginHandler lib req w = send w ⟨500, .msg m⟩ := by
  simp [loginHandler, hfound, hthrow]

/-- C7: two logins that both send no password, on the sample store. For the unknown
email the answer is 400 "Invalid credentials"; for Ada's email, which is on record,
`bcrypt.compare` throws on the absent password and the answer is 500 "Illegal
arguments: undefined, string". With the string password "guess", which is wrong for
Ada, both emails are answered 400 "Invalid credentials". -/
theorem login_absent_password_tells_emails_apart :
    ((∀ x ∈ sampleWorld.users, x.email ≠ "eve@example.org") ∧
      findOne sampleWorld.users "ada@example.org" = some sampleUser) ∧
    (loginHandler sampleLib ⟨none, { email := "eve@example.org" }⟩ sampleWorld).sent
      = [⟨400, .msg "Invalid credentials"⟩] ∧
    (loginHandler sampleLib ⟨none, { email := "ada@example.org" }⟩ sampleWorld).sent
      = [⟨500, .msg "Illegal arguments: undefined, string"⟩] ∧
    (loginHandler sampleLib
        ⟨none, { email := "eve@example.org", password := .str "guess" }⟩ sampleWorld).sent
      = [⟨400, .msg "Invalid credentials"⟩] ∧
    (loginHandler sampleLib
        ⟨none, { email := "ada@example.org", password := .str "guess" }⟩ sampleWorld).sent
      = [⟨400, .msg "Invalid credentials"⟩] := by
  decide

/-! ## Registration -/

@[simp] theorem send_users (w : World) (r : Response) : (send w r).users = w.users := rfl

@[simp] theorem send_expenses (w : World) (r : Response) :
    (send w r).expenses = w.expenses := rfl

theorem findOne_eq_none_iff (users : List User) (e : String) :
    findOne users e = none ↔ ∀ x ∈ users, x.email ≠ e := by
  simp [findOne, List.find?_eq_none]

theorem findOne_isSome_of_mem (users : List User) (e : String)
    (h : ∃ x ∈ users, x.email = e) : ∃ u, findOne users e = some u := by
  cases hf : findOne users e with
  | some u => exact ⟨u, rfl⟩
  | none =>
    obtain ⟨x, hx, hxe⟩ := h
    exact absurd hxe ((findOne_eq_none_iff users e).1 hf x hx)

theorem findById_some_id {users : List User} {id : ObjectId} {u : User}
    (h : findById users id = some u) : u._id = id := by
  have := List.find?_some h
  simpa using this

/-- The three ways the guard can end. -/
theorem auth_cases (lib : Lib) (req : Request) (next : ObjectId → Request → World → World)
    (w : World) :
    auth lib req next w = send w ⟨401, .msg "No token"⟩ ∨
    auth lib req next w = send w ⟨401, .msg "Invalid token"⟩ ∨
    ∃ t d, req.token = some t ∧ lib.jwtVerify t = some d ∧
      auth lib req next w = next d.id req w := by
  unfold auth
  cases ht : req.token with
  | none => exact Or.inl rfl
  | some t =>
    by_cases h0 : t = ""
    · simp [h0]
    · cases hv : lib.jwtVerify t with
      | none => simp [h0, hv]
      | some d => exact Or.inr (Or.inr ⟨t, d, rfl, hv, by simp [h0, hv]⟩)

theorem saveUser_map_email (users : List User) (u : User) (b : Double) (id : ObjectId)
    (h : findById users id = some u) :
    (saveUser users { u with budget := b }).map (fun x => x.email)
      = users.map (fun x => x.email) := by
  induction users with
  | nil => simp [findById] at h
  | cons x xs ih =>
    have hid := findById_some_id h
    by_cases hx : x._id = id
    · have hxu : x = u := by simpa [findById, List.find?_cons, hx] using h
      subst hxu
      simp [saveUser]
    · have hb : (x._id == id) = false := by simpa using hx
      have hne : ¬ x._id = u._id := by rw [hid]; exact hx
      have h2 : findById xs id = some u := by
        simpa [findById, List.find?_cons, hb] using h
      simp [saveUser, hne, ih h2]

theorem budgetHandler_emails (user : ObjectId) (req : Request) (w : World) :
    emails (budgetHandler user req w) = emails w := by
  unfold budgetHandler emails
  cases h : findById w.users user with
  | none => simp
  | some u => simpa using saveUser_map_email w.users u req.body.budget user h

theorem registerHandler_emails (lib : Lib) (req : Request) (w : World) :
    emails (registerHandler lib req w) = emails w ∨
    (req.body.email ∉ emails w ∧
      emails (registerHandler lib req w) = emails w ++ [req.body.email]) := by
  unfold registerHandler emails
  cases h : findOne w.users req.body.email with
  | some u => exact Or.inl (by simp)
  | none =>
    cases hh : lib.bcryptHash req.body.password with
    | error m => exact Or.inl (by simp)
    | ok digest =>
      right
      rw [findOne_eq_none_iff] at h
      refine ⟨?_, by simp⟩
      simpa using h

/-- Serving any request either leaves the emails on record as they are or appends
one that was not on record. -/
theorem serve_emails (lib : Lib) (w : World) (r : Route × Request) :
    emails (serve lib w r) = emails w ∨
    ∃ e, e ∉ emails w ∧ emails (serve lib w r) = emails w ++ [e] := by
  obtain ⟨route, req⟩ := r
  cases route with
  | register =>
    rcases registerHandler_emails lib req w with h | ⟨hn, h⟩
    · exact Or.inl h
    · exact Or.inr ⟨_, hn, h⟩
  | login =>
    left
    simp only [serve, loginHandler, emails]
    split
    · rfl
    · split
      · rfl
      · split <;> rfl
  | postBudget =>
    left
    simp only [serve, postBudget]
    rcases auth_cases lib req budgetHandler w with h | h | ⟨t, d, _, _, h⟩
    · rw [h]; rfl
    · rw [h]; rfl
    · rw [h]; exact budgetHandler_emails _ _ _
  | postExpenses =>
    left
    simp only [serve, postExpenses]
    rcases auth_cases lib req addExpenseHandler w with h | h | ⟨t, d, _, _, h⟩
    · rw [h]; rfl
    · rw [h]; rfl
    · rw [h]; rfl
  | getExpenses =>
    left
    simp only [serve, getExpenses]
    rcases auth_cases lib req getExpensesHandler w with h | h | ⟨t, d, _, _, h⟩
    · rw [h]; rfl
    · rw [h]; rfl
    · rw [h]; rfl
  | getAnalytics =>
    left
    simp only [serve, getAnalytics]
    rcases auth_cases lib req analyticsHandler w with h | h | ⟨t, d, _, _, h⟩
    · rw [h]; rfl
    · rw [h]; rfl
    · rw [h]
      simp only [analyticsHandler, emails]
      split <;> rfl

theorem serveAll_emails_nodup (lib : Lib) (rs : List (Route × Request)) (w : World)
    (h : (emails w).Nodup) : (emails (serveAll lib w rs)).Nodup := by
  induction rs generalizing w with
  | nil => exact h
  | cons r rs ih =>
    apply ih
    rcases serve_emails lib w r with e | ⟨x, hx, e⟩
    · rw [e]; exact h
    · rw [e]
      exact List.nodup_append.2 ⟨h, List.nodup_singleton x, by simpa using hx⟩

theorem serveAll_emails_mem (lib : Lib) (rs : List (Route × Request)) (w : World)
    (e : String) (h : e ∈ emails w) : e ∈ emails (serveAll lib w rs) := by
  induction rs generalizing w with
  | nil => exact h
  | cons r rs ih =>
    apply ih
    rcases serve_emails lib w r with h2 | ⟨x, _, h2⟩
    · rw [h2]; exact h
    · rw [h2]; exact List.mem_append_left _ h

theorem registerHandler_of_mem (lib : Lib) (req : Request) (w : World)
    (h : req.body.email ∈ emails w) :
    registerHandler lib req w = send w ⟨400, .msg "User exists"⟩ := by
  obtain ⟨x, hx, hxe⟩ := List.mem_map.1 h
  obtain ⟨u, hu⟩ := findOne_isSome_of_mem w.users req.body.email ⟨x, hx, hxe⟩
  simp only [registerHandler, hu]

/-- C8 fails as stated: on the sample store, a registration with an email that is
not on record and no password is answered 500 "Illegal arguments: undefined,
number", and no user is added. -/
theorem register_absent_password_500 :
    (∀ x ∈ sampleWorld.users, x.email ≠ "eve@example.org") ∧
    registerHandler sampleLib ⟨none, { firstName := "Eve", email := "eve@example.org" }⟩
        sampleWorld
      = send sampleWorld ⟨500, .msg "Illegal arguments: undefined, number"⟩ ∧
    (registerHandler sampleLib ⟨none, { firstName := "Eve", email := "eve@example.org" }⟩
        sampleWorld).users = sampleWorld.users := by
  decide

/-- C8 as amended: registration on any store. If the email is on record, the answer
is 400 "User exists" and the store is as before. If it is not and `bcrypt.hash`
throws, as it does for a password that is absent or not a string, the answer is 500
with the error text and the store is as before. If it is not and `bcrypt.hash`
returns a digest, exactly one user is appended, carrying that email, that digest and
budget 0, and the answer is the bare acknowledgment; from then on, whatever requests
are served in between, registering that email again is answered 400 "User exists".
Emails on record stay pairwise distinct under every sequence of requests, so
starting from the empty store no two users ever share one. -/
theorem register_duplicate_or_adds_one (lib : Lib) (req : Request) (w : World) :
    ((∃ x ∈ w.users, x.email = req.body.email) →
      registerHandler lib req w = send w ⟨400, .msg "User exists"⟩ ∧
      (registerHandler lib req w).users = w.users) ∧
    ((∀ x ∈ w.users, x.email ≠ req.body.email) →
      ∀ m : String, lib.bcryptHash req.body.password = .error m →
        registerHandler lib req w = send w ⟨500, .msg m⟩ ∧
        (registerHandler lib req w).users = w.users) ∧
    ((∀ x ∈ w.users, x.email ≠ req.body.email) →
      ∀ digest : String, lib.bcryptHash req.body.password = .ok digest →
      ∃ nu : User, nu.email = req.body.email ∧ nu.password = digest ∧ nu.budget = 0 ∧
        registerHandler lib req w
          = send { w with users := w.users ++ [nu], nextId := w.nextId + 1 }
              ⟨200, .msg "Registered successfully"⟩ ∧
        ∀ (rs : List (Route × Request)) (req2 : Request),
          req2.body.email = req.body.email →
          registerHandler lib req2 (serveAll lib (registerHandler lib req w) rs)
            = send (serveAll lib (registerHandler lib req w) rs)
                ⟨400, .msg "User exists"⟩) ∧
    (∀ rs : List (Route × Request), (emails w).Nodup →
      (emails (serveAll lib (registerHandler lib req w) rs)).Nodup) ∧
    (∀ rs : List (Route × Request), (emails (serveAll lib emptyWorld rs)).Nodup) := by
  refine ⟨?_, ?_, ?_, ?_, ?_⟩
  · intro h
    have hm : req.body.email ∈ emails w := by
      obtain ⟨x, hx, hxe⟩ := h
      exact List.mem_map.2 ⟨x, hx, hxe⟩
    rw [registerHandler_of_mem lib req w hm]
    exact ⟨rfl, rfl⟩
  · intro h m hm
    have hnone := (findOne_eq_none_iff w.users req.body.email).2 h
    have hreg : registerHandler lib req w = send w ⟨500, .msg m⟩ := by
      simp only [registerHandler, hnone, hm]
    rw [hreg]
    exact ⟨rfl, rfl⟩
  · intro h digest hd
    have hnone := (findOne_eq_none_iff w.users req.body.email).2 h
    have hreg : registerHandler lib req w
          = send { w with
                    users := w.users ++
                      [{ _id := w.nextId, firstName := req.body.firstName,
                         lastName := req.body.lastName, email := req.body.email,
                         password := digest, budget := 0 }],
                    nextId := w.nextId + 1 }
              ⟨200, .msg "Registered successfully"⟩ := by
      simp only [registerHandler, hnone, hd]
    refine ⟨_, rfl, rfl, rfl, hreg, ?_⟩
    intro rs req2 he
    apply registerHandler_of_mem
    apply serveAll_emails_mem
    rw [he, hreg]
    simp [emails]
  · intro rs hnd
    have := serveAll_emails_nodup lib ((Route.register, req) :: rs) w hnd
    simpa [serveAll, serve] using this
  · intro rs
    exact serveAll_emails_nodup lib rs emptyWorld (by simp [emails, emptyWorld])

/-- C8 as amended, on the sample store: Ada's email is refused, a new email with the
password "pw" is appended with the digest and budget 0 and is refused from then on,
and the same email without password is answered 500. -/
theorem register_duplicate_or_adds_one_witness :
    ((∃ x ∈ sampleWorld.users, x.email = "ada@example.org") ∧
      registerHandler sampleLib
          ⟨none, { email := "ada@example.org", password := .str "pw" }⟩ sampleWorld
        = send sampleWorld ⟨400, .msg "User exists"⟩) ∧
    ((∀ x ∈ sampleWorld.users, x.email ≠ "eve@example.org") ∧
      sampleLib.bcryptHash (.str "pw") = .ok "wp" ∧
      sampleLib.bcryptHash .absent = .error "Illegal arguments: undefined, number" ∧
      (registerHandler sampleLib
          ⟨none, { firstName := "Eve", email := "eve@example.org", password := .str "pw" }⟩
          sampleWorld).users
        = sampleWorld.users ++
            [{ _id := 14, firstName := "Eve", lastName := "", email := "eve@example.org",
               password := "wp", budget := 0 }]) ∧
    (registerHandler sampleLib ⟨none, { firstName := "Eve", email := "eve@example.org" }⟩
        sampleWorld
      = send sampleWorld ⟨500, .msg "Illegal arguments: undefined, number"⟩) ∧
    (∃ nu : User, nu.email = "eve@example.org" ∧ nu.password = "wp" ∧ nu.budget = 0 ∧
        registerHandler sampleLib
            ⟨none, { firstName := "Eve", email := "eve@example.org", password := .str "pw" }⟩
            sampleWorld
          = send { sampleWorld with
                    users := sampleWorld.users ++ [nu], nextId := sampleWorld.nextId + 1 }
              ⟨200, .msg "Registered successfully"⟩ ∧
        ∀ (rs : List (Route × Request)) (req2 : Request),
          req2.body.email = "eve@example.org" →
          registerHandler sampleLib req2
              (serveAll sampleLib
                (registerHandler sampleLib
                  ⟨none, { firstName := "Eve", email := "eve@example.org",
                           password := .str "pw" }⟩
                  sampleWorld) rs)
            = send
                (serveAll sampleLib
                  (registerHandler sampleLib
                    ⟨none, { firstName := "Eve", email := "eve@example.org",
                             password := .str "pw" }⟩
                    sampleWorld) rs)
                ⟨400, .msg "User exists"⟩) :=
  ⟨⟨by decide,
    ((register_duplicate_or_adds_one sampleLib
        ⟨none, { email := "ada@example.org", password := .str "pw" }⟩ sampleWorld).1
      (by decide)).1⟩,
   ⟨by decide, rfl, rfl, by decide⟩,
   ((register_duplicate_or_adds_one sampleLib
      ⟨none, { firstName := "Eve", email := "eve@example.org" }⟩ sampleWorld).2.1
      (by decide) "Illegal arguments: undefined, number" rfl).1,
   (register_duplicate_or_adds_one sampleLib
      ⟨none, { firstName := "Eve", email := "eve@example.org", password := .str "pw" }⟩
      sampleWorld).2.2.1 (by decide) "wp" rfl⟩

/-! ## Isolation of writes -/

theorem saveUser_filter_ne (users : List User) (u1 : User) (y : ObjectId)
    (h : u1._id ≠ y) :
    (saveUser users u1).filter (fun u => u._id == y) = users.filter (fun u => u._id == y) := by
  induction users with
  | nil => rfl
  | cons x xs ih =>
    by_cases hx : x._id = u1._id
    · have hxy : ¬ x._id = y := by rw [hx]; exact h
      simp [saveUser, hx, List.filter_cons, h]
    · simp [saveUser, hx, List.filter_cons, ih]

theorem findById_saveUser_self (users : List User) (u : User) (b : Double) (id : ObjectId)
    (h : findById users id = some u) :
    findById (saveUser users { u with budget := b }) id = some { u with budget := b } := by
  induction users with
  | nil => simp [findById] at h
  | cons x xs ih =>
    have hid := findById_some_id h
    by_cases hx : x._id = id
    · have hxu : x = u := by simpa [findById, List.find?_cons, hx] using h
      subst hxu
      simp [saveUser, findById, List.find?_cons, hx]
    · have hb : (x._id == id) = false := by simpa using hx
      have hne : ¬ x._id = u._id := by rw [hid]; exact hx
      have h2 : findById xs id = some u := by
        simpa [findById, List.find?_cons, hb] using h
      have := ih h2
      simp only [findById] at this
      simp [saveUser, hne, findById, List.find?_cons, hb, this]

theorem findById_eq_of_filter_eq (us vs : List User) (y : ObjectId)
    (h : us.filter (fun u => u._id == y) = vs.filter (fun u => u._id == y)) :
    findById us y = findById vs y := by
  simp only [findById, ← List.filter_head?, h]

theorem budgetHandler_frame (x y : ObjectId) (req : Request) (w : World) (h : y ≠ x) :
    (budgetHandler x req w).users.filter (fun u => u._id == y)
      = w.users.filter (fun u => u._id == y) ∧
    (budgetHandler x req w).expenses = w.expenses := by
  unfold budgetHandler
  cases hf : findById w.users x with
  | none => exact ⟨rfl, rfl⟩
  | some u =>
    refine ⟨?_, rfl⟩
    have hid := findById_some_id hf
    simpa using saveUser_filter_ne w.users { u with budget := req.body.budget } y
      (by simpa [hid] using (Ne.symm h))

theorem addExpenseHandler_expenses (x : ObjectId) (req : Request) (w : World) :
    (addExpenseHandler x req w).expenses
      = w.expenses ++ [{ _id := w.nextId, user := x, category := req.body.category,
                         amount := req.body.amount, date := req.body.date,
                         note := req.body.note }] := rfl

/-- C9: let a request carry a token that verifies to identity `d.id`, and let `y` be
any other user id. Sent to the budget route or to the add-expense route, whatever its
body, it leaves every user record with id `y` (so `y`'s budget) and every expense
owned by `y` as they were; every expense present afterwards was there before or is
owned by `d.id`; with a non-empty token the budget written is that of `d.id` and the
expense appended is owned by `d.id`. A `user` field in the body changes nothing: the
resulting world is the same for every value of it. -/
theorem writes_scoped_to_identity (lib : Lib) (req : Request) (w : World) (t : String)
    (d : Decoded) (y : ObjectId)
    (htok : req.token = some t) (hver : lib.jwtVerify t = some d) (hy : y ≠ d.id) :
    ((postBudget lib req w).users.filter (fun u => u._id == y)
        = w.users.filter (fun u => u._id == y) ∧
      findById (postBudget lib req w).users y = findById w.users y ∧
      (postBudget lib req w).expenses = w.expenses ∧
      (t ≠ "" → ∀ u, findById w.users d.id = some u →
        findById (postBudget lib req w).users d.id
          = some { u with budget := req.body.budget })) ∧
    ((postExpenses lib req w).users = w.users ∧
      findExpenses (postExpenses lib req w).expenses y = findExpenses w.expenses y ∧
      (∀ e ∈ (postExpenses lib req w).expenses, e ∈ w.expenses ∨ e.user = d.id) ∧
      (t ≠ "" → ∃ e : Expense, e.user = d.id ∧
        (postExpenses lib req w).expenses = w.expenses ++ [e])) ∧
    (∀ v : Option ObjectId,
      postBudget lib { req with body := { req.body with user := v } } w
        = postBudget lib req w ∧
      postExpenses lib { req with body := { req.body with user := v } } w
        = postExpenses lib req w) := by
  by_cases ht : t = ""
  · have hb : ∀ r : Request, r.token = some t → ∀ nx, auth lib r nx w
        = send w ⟨401, .msg "No token"⟩ := by
      intro r hr nx
      simp [auth, hr, ht]
    refine ⟨?_, ?_, ?_⟩
    · rw [postBudget, hb req htok]
      exact ⟨rfl, rfl, rfl, fun h => absurd ht h⟩
    · rw [postExpenses, hb req htok]
      exact ⟨rfl, rfl, fun e he => Or.inl he, fun h => absurd ht h⟩
    · intro v
      simp only [postBudget, postExpenses]
      rw [hb req htok, hb req htok, hb { req with body := { req.body with user := v } } htok,
        hb { req with body := { req.body with user := v } } htok]
      exact ⟨rfl, rfl⟩
  · have hb : ∀ r : Request, r.token = some t → ∀ nx, auth lib r nx w = nx d.id r w := by
      intro r hr nx
      simp [auth, hr, ht, hver]
    refine ⟨?_, ?_, ?_⟩
    · rw [postBudget, hb req htok]
      obtain ⟨h1, h2⟩ := budgetHandler_frame d.id y req w hy
      refine ⟨h1, findById_eq_of_filter_eq _ _ _ h1, h2, ?_⟩
      intro _ u hu
      simpa [budgetHandler, hu] using
        findById_saveUser_self w.users u req.body.budget d.id hu
    · rw [postExpenses, hb req htok]
      refine ⟨rfl, ?_, ?_, ?_⟩
      · have hne : ¬ d.id = y := fun h => hy h.symm
        simp [addExpenseHandler_expenses, findExpenses, List.filter_append, hne]
      · intro e he
        rw [addExpenseHandler_expenses] at he
        rcases List.mem_append.1 he with h | h
        · exact Or.inl h
        · right
          rw [List.mem_singleton.1 h]
      · intro _
        exact ⟨_, rfl, addExpenseHandler_expenses d.id req w⟩
    · intro v
      simp only [postBudget, postExpenses]
      rw [hb req htok, hb req htok, hb { req with body := { req.body with user := v } } htok,
        hb { req with body := { req.body with user := v } } htok]
      exact ⟨rfl, rfl⟩

/-- C9 on the sample store: Ada's token with Bob's id in the body. Bob's record and
expense stay, Ada's budget becomes 7, the new expense is Ada's. -/
theorem writes_scoped_to_identity_witness :
    (((⟨some "token-1", { budget := 7, category := "C", amount := 3, user := some 2 }⟩
          : Request).token = some "token-1" ∧
      sampleLib.jwtVerify "token-1" = some ⟨1⟩ ∧ (2 : ObjectId) ≠ (⟨1⟩ : Decoded).id) ∧
    (postBudget sampleLib
        ⟨some "token-1", { budget := 7, category := "C", amount := 3, user := some 2 }⟩
        sampleWorld).users = [{ sampleUser with budget := 7 }, otherUser] ∧
    (postExpenses sampleLib
        ⟨some "token-1", { budget := 7, category := "C", amount := 3, user := some 2 }⟩
        sampleWorld).expenses
      = sampleExpenses ++
          [{ _id := 14, user := 1, category := "C", amount := 3, date := 0, note := "" }]) ∧
    findById (postBudget sampleLib
        ⟨some "token-1", { budget := 7, category := "C", amount := 3, user := some 2 }⟩
        sampleWorld).users 2 = findById sampleWorld.users 2 ∧
    findExpenses (postExpenses sampleLib
        ⟨some "token-1", { budget := 7, category := "C", amount := 3, user := some 2 }⟩
        sampleWorld).expenses 2 = findExpenses sampleWorld.expenses 2 :=
  ⟨by decide,
   (writes_scoped_to_identity sampleLib
      ⟨some "token-1", { budget := 7, category := "C", amount := 3, user := some 2 }⟩
      sampleWorld "token-1" ⟨1⟩ 2 rfl (by decide) (by decide)).1.2.1,
   (writes_scoped_to_identity sampleLib
      ⟨some "token-1", { budget := 7, category := "C", amount := 3, user := some 2 }⟩
      sampleWorld "token-1" ⟨1⟩ 2 rfl (by decide) (by decide)).2.1.2.1⟩

/-! ## Listing expenses -/

/-- C10: the list-expenses handler answers 200 with a list that holds exactly the
stored expenses owned by the identity (a permutation of them, hence each of them
with its multiplicity and no expense of another owner), arranged so that no earlier
entry has an earlier date than a later entry; it leaves both collections untouched,
so the same call repeated at once returns the same list. -/
theorem getExpenses_owned_sorted (user : ObjectId) (req : Request) (w : World) :
    ∃ l : List Expense,
      getExpensesHandler user req w = send w ⟨200, .list l⟩ ∧
      l.Perm (w.expenses.filter (fun e => e.user == user)) ∧
      (∀ e, e ∈ l ↔ e ∈ w.expenses ∧ e.user = user) ∧
      l.Pairwise (fun a b => b.date ≤ a.date) ∧
      (∀ req2 : Request,
        getExpensesHandler user req2 (getExpensesHandler user req w)
          = send (getExpensesHandler user req w) ⟨200, .list l⟩) := by
  refine ⟨sortByDateDesc (findExpenses w.expenses user), rfl, ?_, ?_, ?_, ?_⟩
  · exact List.perm_insertionSort dateDesc _
  · intro e
    rw [sortByDateDesc, (List.perm_insertionSort dateDesc _).mem_iff]
    simp [findExpenses]
  · exact List.sorted_insertionSort dateDesc _
  · intro req2
    rfl


/-! ## Analytics: the per-category object -/

theorem lookup_cons_ite (o : JSObject) (a k : String) (b : Prim) :
    List.lookup k ((a, b) :: o) = if k = a then some b else List.lookup k o := by
  by_cases h : k = a
  · simp [List.lookup_cons, h]
  · have hb : (k == a) = false := by simpa using h
    simp [List.lookup_cons, h, hb]

theorem lookup_put (o : JSObject) (k k' : String) (p : Prim) :
    (JSObject.put o k p).lookup k' = if k' = k then some p else o.lookup k' := by
  induction o with
  | nil => simp [JSObject.put, lookup_cons_ite]
  | cons x o ih =>
    obtain ⟨a, b⟩ := x
    by_cases ha : a = k
    · subst ha
      by_cases h : k' = a <;> simp [JSObject.put, lookup_cons_ite, h]
    · simp only [JSObject.put, ha, if_false, lookup_cons_ite, ih]
      by_cases h : k' = k
      · subst h
        have : ¬ k' = a := fun e => ha e.symm
        simp [this]
      · simp [h]

theorem keys_put (o : JSObject) (k : String) (p : Prim) :
    (JSObject.put o k p).map Prod.fst
      = if k ∈ o.map Prod.fst then o.map Prod.fst else o.map Prod.fst ++ [k] := by
  induction o with
  | nil => simp [JSObject.put]
  | cons x o ih =>
    obtain ⟨a, b⟩ := x
    by_cases ha : a = k
    · subst ha
      simp [JSObject.put]
    · have hk : ¬ k = a := fun e => ha e.symm
      simp only [JSObject.put, ha, if_false, List.map_cons, List.mem_cons, hk, false_or, ih]
      split <;> simp

theorem mem_keys_iff_lookup (o : JSObject) (k : String) :
    k ∈ o.map Prod.fst ↔ (o.lookup k).isSome := by
  induction o with
  | nil => simp
  | cons x o ih =>
    obtain ⟨a, b⟩ := x
    rw [lookup_cons_ite]
    by_cases h : k = a
    · simp [h]
    · simp only [List.map_cons, List.mem_cons, h, false_or, if_false]
      exact ih

theorem step_keys_nodup (o : JSObject) (k : String) (p : Prim)
    (ho : (o.map Prod.fst).Nodup) : ((JSObject.set o k p).map Prod.fst).Nodup := by
  unfold JSObject.set
  split
  · exact ho
  · rw [keys_put]
    split
    · exact ho
    · rename_i hk
      exact List.nodup_append.2 ⟨ho, List.nodup_singleton k, by simpa using hk⟩

theorem mem_keys_set (o : JSObject) (c k : String) (p : Prim) :
    k ∈ (JSObject.set o c p).map Prod.fst ↔
      k ∈ o.map Prod.fst ∨ (c ≠ "__proto__" ∧ k = c) := by
  unfold JSObject.set
  by_cases hc : c = "__proto__"
  · simp [hc]
  · rw [if_neg hc, keys_put]
    by_cases hm : c ∈ o.map Prod.fst
    · rw [if_pos hm]
      constructor
      · exact fun h => Or.inl h
      · rintro (h | ⟨_, rfl⟩)
        · exact h
        · exact hm
    · rw [if_neg hm]
      simp [hc]

/-- Whatever the amounts, the keys of `byCategory` are pairwise distinct and are
exactly the labels on record other than `__proto__`. -/
theorem byCategoryOf_keys (l : List Expense) :
    ((byCategoryOf l).map Prod.fst).Nodup ∧
    ∀ k, k ∈ (byCategoryOf l).map Prod.fst ↔
      (k ≠ "__proto__" ∧ ∃ e ∈ l, e.category = k) := by
  unfold byCategoryOf
  suffices h : ∀ o : JSObject, (o.map Prod.fst).Nodup →
      ((l.foldl (fun o e => JSObject.set o e.category
          (orZeroPlus (JSObject.get o e.category) e.amount)) o).map Prod.fst).Nodup ∧
      ∀ k, k ∈ (l.foldl (fun o e => JSObject.set o e.category
          (orZeroPlus (JSObject.get o e.category) e.amount)) o).map Prod.fst ↔
        (k ∈ o.map Prod.fst ∨ (k ≠ "__proto__" ∧ ∃ e ∈ l, e.category = k)) by
    have := h [] (by simp)
    simpa using this
  induction l with
  | nil => exact fun o ho => ⟨ho, fun k => by simp⟩
  | cons e l ih =>
    intro o ho
    obtain ⟨h1, h2⟩ := ih (JSObject.set o e.category
      (orZeroPlus (JSObject.get o e.category) e.amount)) (step_keys_nodup o _ _ ho)
    refine ⟨h1, fun k => ?_⟩
    rw [List.foldl_cons, h2, mem_keys_set]
    constructor
    · rintro ((h | ⟨hc, rfl⟩) | ⟨hk, x, hx, hxe⟩)
      · exact Or.inl h
      · exact Or.inr ⟨hc, e, List.mem_cons_self e l, rfl⟩
      · exact Or.inr ⟨hk, x, List.mem_cons_of_mem e hx, hxe⟩
    · rintro (h | ⟨hk, x, hx, hxe⟩)
      · exact Or.inl (Or.inl h)
      · rcases List.mem_cons.1 hx with rfl | hl
        · subst hxe
          exact Or.inl (Or.inr ⟨hk, rfl⟩)
        · exact Or.inr ⟨hk, x, hl, hxe⟩

theorem wholeAt_of_lookup (o : JSObject) (k : String) (z : Int)
    (h : o.lookup k = some (.num (.fin (z * (unit : Int))))) : wholeAt o k = z := by
  simp only [wholeAt, h]
  exact Int.mul_ediv_cancel z (ne_of_gt unit_pos)

theorem step_lookup (o : JSObject) (k : String) (amt : Amount) (hk : plainLabel k)
    (ho : allWhole o) (ha : amt.isWhole)
    (hb : (wholeAt o k + amt.whole).natAbs < 2 ^ 53) (k' : String) :
    (JSObject.set o k (orZeroPlus (JSObject.get o k) amt)).lookup k'
      = if k' = k then some (.num (.fin ((wholeAt o k + amt.whole) * (unit : Int))))
        else o.lookup k' := by
  obtain ⟨hp, hl⟩ := hk
  have hnum : amt.toNumber = .fin (amt.whole * (unit : Int)) := by
    conv_lhs => rw [ha]
    rfl
  have hval : orZeroPlus (JSObject.get o k) amt
      = .num (.fin ((wholeAt o k + amt.whole) * (unit : Int))) := by
    unfold JSObject.get
    cases h : o.lookup k with
    | none =>
      have h0 : wholeAt o k = 0 := by simp [wholeAt, h]
      have hz : Double.fin 0 = .fin ((0 : Int) * (unit : Int)) := by simp
      simp only [hp, hl, if_false, orZeroPlus, hnum]
      rw [hz, add_whole 0 amt.whole (by simpa [h0] using hb), h0]
    | some p =>
      have hpv := ho k p h
      subst hpv
      have hne : Double.fin (wholeAt o k * (unit : Int)) ≠ .nan := fun e => Double.noConfusion e
      have hleft : (if Double.fin (wholeAt o k * (unit : Int)) = .fin 0
            ∨ Double.fin (wholeAt o k * (unit : Int)) = .nan
          then Double.fin 0 else .fin (wholeAt o k * (unit : Int)))
          = .fin (wholeAt o k * (unit : Int)) := by
        by_cases h0 : Double.fin (wholeAt o k * (unit : Int)) = .fin 0
        · rw [if_pos (Or.inl h0)]
          exact h0.symm
        · rw [if_neg (by simp [h0])]
      simp only [orZeroPlus, hleft, hnum]
      rw [add_whole _ _ hb]
  rw [JSObject.set, if_neg hp, hval, lookup_put]

theorem wholeAt_step (o : JSObject) (k : String) (amt : Amount) (hk : plainLabel k)
    (ho : allWhole o) (ha : amt.isWhole)
    (hb : (wholeAt o k + amt.whole).natAbs < 2 ^ 53) (k' : String) :
    wholeAt (JSObject.set o k (orZeroPlus (JSObject.get o k) amt)) k'
      = if k' = k then wholeAt o k + amt.whole else wholeAt o k' := by
  by_cases h : k' = k
  · rw [if_pos h]
    apply wholeAt_of_lookup
    rw [step_lookup o k amt hk ho ha hb, if_pos h]
  · rw [if_neg h]
    simp only [wholeAt, step_lookup o k amt hk ho ha hb, if_neg h]

theorem step_allWhole (o : JSObject) (k : String) (amt : Amount) (hk : plainLabel k)
    (ho : allWhole o) (ha : amt.isWhole)
    (hb : (wholeAt o k + amt.whole).natAbs < 2 ^ 53) :
    allWhole (JSObject.set o k (orZeroPlus (JSObject.get o k) amt)) := by
  intro k' p hp
  rw [wholeAt_step o k amt hk ho ha hb]
  rw [step_lookup o k amt hk ho ha hb] at hp
  by_cases h : k' = k
  · rw [if_pos h] at hp ⊢
    exact (Option.some.inj hp).symm
  · rw [if_neg h] at hp ⊢
    exact ho k' p hp

/-- The loop of lines 122-125 started from any object of integers, on plain labels
and integer amounts whose magnitudes stay below `2^53` in sum. -/
theorem foldl_byCategory (l : List Expense) (o : JSObject)
    (hl : ∀ e ∈ l, plainLabel e.category) (hw : ∀ e ∈ l, e.amount.isWhole)
    (ho : allWhole o) (hb : ∀ k, (wholeAt o k).natAbs + wholeAbsSum l < 2 ^ 53)
    (k : String) :
    (l.foldl (fun o e =>
        JSObject.set o e.category (orZeroPlus (JSObject.get o e.category) e.amount)) o).lookup k
      = if (∃ e ∈ l, e.category = k) ∨ (o.lookup k).isSome
        then some (.num (.fin ((wholeAt o k
          + wholeSum (l.filter (fun e => e.category == k))) * (unit : Int))))
        else none := by
  induction l generalizing o with
  | nil =>
    simp only [List.foldl_nil, List.not_mem_nil, false_and, exists_false, false_or, wholeSum,
      List.filter_nil, List.map_nil, List.sum_nil, add_zero]
    cases h : o.lookup k with
    | none => simp
    | some p =>
      rw [ho k p h]
      simp
  | cons e l ih =>
    have he := hl e (List.mem_cons_self e l)
    have hwe := hw e (List.mem_cons_self e l)
    have hsum : wholeAbsSum (e :: l) = e.amount.whole.natAbs + wholeAbsSum l := by
      simp [wholeAbsSum]
    have habs : ∀ k', (wholeAt o k' + e.amount.whole).natAbs
        ≤ (wholeAt o k').natAbs + e.amount.whole.natAbs := fun k' => Int.natAbs_add_le _ _
    have hstepb : (wholeAt o e.category + e.amount.whole).natAbs < 2 ^ 53 := by
      have := hb e.category
      have := habs e.category
      omega
    have ho1 := step_allWhole o e.category e.amount he ho hwe hstepb
    have hb1 : ∀ k', (wholeAt (JSObject.set o e.category
        (orZeroPlus (JSObject.get o e.category) e.amount)) k').natAbs
        + wholeAbsSum l < 2 ^ 53 := by
      intro k'
      rw [wholeAt_step o e.category e.amount he ho hwe hstepb]
      have h1 := hb k'
      have h2 := hb e.category
      have h3 := habs e.category
      split <;> omega
    have h2 := ih _ (fun x hx => hl x (List.mem_cons_of_mem e hx))
      (fun x hx => hw x (List.mem_cons_of_mem e hx)) ho1 hb1
    rw [List.foldl_cons, h2, step_lookup o e.category e.amount he ho hwe hstepb,
      wholeAt_step o e.category e.amount he ho hwe hstepb]
    by_cases hk : k = e.category
    · subst hk
      simp [wholeSum, List.filter_cons, add_assoc]
    · have hk2 : ¬ e.category = k := fun h => hk h.symm
      rw [if_neg hk, if_neg hk]
      have hex : (∃ x ∈ e :: l, x.category = k) ↔ ∃ x ∈ l, x.category = k := by
        simp [hk2]
      have hs : (e :: l).filter (fun e => e.category == k)
          = l.filter (fun e => e.category == k) := by
        simp [List.filter_cons, hk2]
      simp only [hex, hs]

/-- On expenses whose labels are all plain and whose amounts are integers with
magnitudes below `2^53` in sum, each label on record is a key of `byCategory`, bound
to the number that is the exact sum of the amounts filed under it. -/
theorem byCategoryOf_plain_labels (l : List Expense)
    (hl : ∀ e ∈ l, plainLabel e.category) (hw : ∀ e ∈ l, e.amount.isWhole)
    (hb : wholeAbsSum l < 2 ^ 53) (k : String) (hk : ∃ e ∈ l, e.category = k) :
    (byCategoryOf l).lookup k
      = some (.num (.fin (wholeSum (l.filter (fun e => e.category == k)) * (unit : Int)))) := by
  have hnil : allWhole [] := by
    intro k p h
    simp at h
  have h0 : ∀ k', wholeAt [] k' = 0 := fun _ => rfl
  have h := foldl_byCategory l [] hl hw hnil (by intro k'; simpa [h0] using hb) k
  simp only [List.lookup_nil, Option.isSome_none, Bool.false_eq_true, or_false, h0,
    zero_add] at h
  unfold byCategoryOf
  rw [h, if_pos hk]

/-- C2: for the stored labels `constructor` (amount 30) and `__proto__` (amount 20) the
analytics handler answers with a `byCategory` whose only key is `constructor`, bound
to a string instead of the number 30; the label `__proto__` is no key at all. The
total, 50, is unaffected. -/
theorem byCategory_inherited_labels :
    findExpenses prototypeWorld.expenses 1 = prototypeWorld.expenses ∧
    (analyticsHandler 1 bareRequest prototypeWorld).sent =
      [⟨200, .analytics
        { budget := 80, totalSpent := 50, remaining := 30,
          byCategory :=
            [("constructor", .str "function Object() \x7b [native code] \x7d30")] }⟩] ∧
    (byCategoryOf prototypeWorld.expenses).lookup "constructor" ≠ some (.num 30) ∧
    "__proto__" ∉ (byCategoryOf prototypeWorld.expenses).map Prod.fst := by
  decide


end ExpenseTracker
